import Mathlib

/-!
Shallow embedding of the spreadsheet persistence layer of `app.py`
(restaurant billing tool).

Modelling conventions:
* A spreadsheet cell value is a `Value`: the Python values that occur are
  `None`, strings, ints and floats.  Floats are modelled as exact rationals.
* A worksheet is modelled as its list of *data* rows (the fixed header row
  written by `ensure_menu_file` / `ensure_bills_file` is implicit: every
  reader skips it and every writer re-emits it unchanged).
* Python `str.strip`, `int(...)`, `float(...)` and truthiness are modelled
  by `pyStrip`, `pyInt`, `pyFloat`, `pyFalsy`.  The string parsers cover
  the decimal forms (optional sign, digits, optional fraction); exotic
  accepted forms (exponents, `inf`, `nan`, underscore separators) and the
  decimal rendering of non-integral floats are outside the behaviour any
  claim exercises and are not modelled.
* `datetime.now().isoformat()` is passed in as an explicit `now` argument.
-/

namespace Hoteal

/-- A Python value that can appear in a worksheet cell or a JSON payload. -/
inductive Value : Type
  | vnone : Value
  | vstr (s : String) : Value
  | vint (n : Int) : Value
  | vnum (q : Rat) : Value
  deriving DecidableEq

/-- Rendering of a Python float.  Integral floats render as in Python
(`str(5.0) = "5.0"`); the decimal rendering of non-integral floats is
abstracted (no verified claim depends on it). -/
def floatRepr (q : Rat) : String :=
  if q.den = 1 then toString q.num ++ ".0" else toString q.num ++ "/" ++ toString q.den

/-- Python `str(v)` on a cell value. -/
def pyStr : Value → String
  | .vnone => "None"
  | .vstr s => s
  | .vint n => toString n
  | .vnum q => floatRepr q

/-- Remove leading and trailing whitespace from a list of characters. -/
def stripList (l : List Char) : List Char :=
  ((l.dropWhile Char.isWhitespace).reverse.dropWhile Char.isWhitespace).reverse

/-- Python `s.strip()`. -/
def pyStrip (s : String) : String := String.mk (stripList s.data)

/-- Value of a digit string read left to right. -/
def digitsToNat (l : List Char) : Nat :=
  l.foldl (fun a c => a * 10 + (c.toNat - 48)) 0

/-- A non-empty all-digit character list parses to its value. -/
def parseDigits (l : List Char) : Option Nat :=
  if !l.isEmpty && l.all Char.isDigit then some (digitsToNat l) else none

/-- Python `int(s)` for a string: strip, optional single sign, digits. -/
def parseIntStr (s : String) : Option Int :=
  match (pyStrip s).data with
  | '+' :: rest => (parseDigits rest).map (fun n => (n : Int))
  | '-' :: rest => (parseDigits rest).map (fun n => -(n : Int))
  | l => (parseDigits l).map (fun n => (n : Int))

/-- Unsigned decimal float body: digits, optionally a point and digits,
at least one digit overall. -/
def parseFloatBody (l : List Char) : Option Rat :=
  match l.span (fun c => c ≠ '.') with
  | (ip, []) => (parseDigits ip).map (fun n => (n : Rat))
  | (ip, _ :: frac) =>
    if ip.all Char.isDigit && frac.all Char.isDigit && !(ip.isEmpty && frac.isEmpty)
    then some ((digitsToNat ip : Rat) + (digitsToNat frac : Rat) / ((10 : Rat) ^ frac.length))
    else none

/-- Python `float(s)` for a string: strip, optional single sign, decimal body. -/
def parseFloatStr (s : String) : Option Rat :=
  match (pyStrip s).data with
  | '+' :: rest => parseFloatBody rest
  | '-' :: rest => (parseFloatBody rest).map (fun q => -q)
  | l => parseFloatBody l

/-- Python truthiness (`not v` is `pyFalsy v`). -/
def pyFalsy : Value → Bool
  | .vnone => true
  | .vstr s => s = ""
  | .vint n => n = 0
  | .vnum q => q = 0

/-- Python `int(v)`: `none` models a raised exception.  `int` of a float
truncates toward zero. -/
def pyInt : Value → Option Int
  | .vnone => none
  | .vstr s => parseIntStr s
  | .vint n => some n
  | .vnum q => some (Int.tdiv q.num (q.den : Int))

/-- Python `float(v)`: `none` models a raised exception. -/
def pyFloat : Value → Option Rat
  | .vnone => none
  | .vstr s => parseFloatStr s
  | .vint n => some (n : Rat)
  | .vnum q => some q

/-! ## Menu catalog (`load_menu_from_xlsx` / `write_menu_to_xlsx`) -/

/-- One menu entry `{"name": ..., "price": ...}` as built by the loader. -/
structure MenuItem where
  name : String
  price : Rat
  deriving DecidableEq

/-- The menu dict `{category: [items]}`: a Python dict keeps string keys in
insertion order, so it is an association list with distinct keys. -/
abbrev Menu := List (String × List MenuItem)

/-- Models `data.setdefault(k, []).append(it)`: append `it` to the entry of `k`,
creating the entry at the end if absent. -/
def setdefaultAppend : Menu → String → MenuItem → Menu
  | [], k, it => [(k, [it])]
  | (k', its) :: rest, k, it =>
    if k' = k then (k', its ++ [it]) :: rest
    else (k', its) :: setdefaultAppend rest k it

/-- Models `cells[i] if cells[i] is not None else ""`, then `str(...).strip()`. -/
def cellText (v : Value) : String :=
  pyStrip (if v = Value.vnone then "" else pyStr v)

/-- Models `cells[2] if len(cells) >= 3 and cells[2] not in (None, "") else 0`. -/
def priceCell (cells : List Value) : Value :=
  if 3 ≤ cells.length then
    (if cells.getD 2 Value.vnone = Value.vnone ∨ cells.getD 2 Value.vnone = Value.vstr ""
     then Value.vint 0 else cells.getD 2 Value.vnone)
  else Value.vint 0

/-- Processing of one data row of `menu.xlsx` inside `load_menu_from_xlsx`. -/
def menuRowStep (data : Menu) (row : List Value) : Menu :=
  let cells := row.take 3
  if cells.length < 2 then data
  else
    let cat := cellText (cells.getD 0 Value.vnone)
    let name := cellText (cells.getD 1 Value.vnone)
    match pyFloat (priceCell cells) with
    | none => data
    | some price =>
      if name = "" then data
      else setdefaultAppend data (if cat = "" then "Uncategorized" else cat)
             { name := name, price := price }

/-- The function `load_menu_from_xlsx`, on the data rows of `menu.xlsx`. -/
def load_menu_from_xlsx (rows : List (List Value)) : Menu :=
  rows.foldl menuRowStep []

/-- The `(category, item)` pairs visited by the nested loops of
`write_menu_to_xlsx`, in iteration order. -/
def menuPairs (m : Menu) : List (String × MenuItem) :=
  m.flatMap (fun e => e.2.map (fun it => (e.1, it)))

/-- The worksheet row written for one `(category, item)` pair. -/
def pairRow (p : String × MenuItem) : List Value :=
  [Value.vstr p.1, Value.vstr p.2.name, Value.vnum p.2.price]

/-- The function `write_menu_to_xlsx`: full rewrite, one row per `(category, item)` pair. -/
def write_menu_to_xlsx (m : Menu) : List (List Value) :=
  (menuPairs m).map pairRow

/-! ## Bill numbering (`next_bill_no`) -/

/-- The loop body of `next_bill_no`: skip empty rows and rows whose first
cell is `None`, otherwise `try: val = int(row[0])` and track the maximum. -/
def nextBillStep (max_bn : Int) (row : List Value) : Int :=
  if row.isEmpty || row.getD 0 Value.vnone = Value.vnone then max_bn
  else
    match pyInt (row.getD 0 Value.vnone) with
    | none => max_bn
    | some val => if max_bn < val then val else max_bn

/-- The function `next_bill_no`, on the data rows of `bills.xlsx`. -/
def next_bill_no (rows : List (List Value)) : Int :=
  rows.foldl nextBillStep 0 + 1

/-! ## Bill append (`append_bill_to_xlsx`) -/

/-- One element of a bill payload's `items` list (a JSON object whose
fields may be absent). -/
structure ItemObj where
  name : Option Value := none
  qty : Option Value := none
  rate : Option Value := none
  amount : Option Value := none
  deriving DecidableEq

/-- The `bill_obj` dict consumed by `append_bill_to_xlsx`: each key may be
absent (`.get` default applies). -/
structure BillObj where
  billNo : Option Value := none
  dateTime : Option Value := none
  payment : Option Value := none
  total : Option Value := none
  table : Option Value := none
  items : Option (List ItemObj) := none
  deriving DecidableEq

/-- The ledger row appended for one item. -/
def billRow (bn dt total payment table : Value) (it : ItemObj) : List Value :=
  [bn, dt, it.name.getD (Value.vstr ""), it.qty.getD (Value.vint 0),
   it.rate.getD (Value.vint 0), it.amount.getD (Value.vint 0), total, payment, table]

/-- The function `append_bill_to_xlsx` on the data rows of `bills.xlsx`; `now` is
`datetime.now().isoformat()`. -/
def append_bill_to_xlsx (now : String) (rows : List (List Value)) (b : BillObj) :
    List (List Value) :=
  let bn := b.billNo.getD (Value.vint (next_bill_no rows))
  let dt := b.dateTime.getD (Value.vstr now)
  let payment := b.payment.getD (Value.vstr "")
  let total := b.total.getD (Value.vnum 0)
  let table := b.table.getD (Value.vstr "")
  rows ++ (b.items.getD []).map (billRow bn dt total payment table)

/-! ## Bill read-back (`read_bills_from_xlsx`) -/

/-- One line item as reconstructed by the reader. -/
structure ItemRec where
  name : Value
  qty : Value
  rate : Value
  amount : Value
  deriving DecidableEq

/-- One reconstructed bill (a value of the `bills` dict). -/
structure BillRec where
  billNo : Value
  dateTime : Value
  table : Value
  payment : Value
  total : Value
  items : List ItemRec
  deriving DecidableEq

/-- Models `if not row or all(c is None for c in row): continue`. -/
def rowSkip (row : List Value) : Bool :=
  row.isEmpty || row.all (fun c => c = Value.vnone)

/-- Models `if key not in bills: bills[key] = rec` then
`bills[key]["items"].append(it)`, on an insertion-ordered dict. -/
def addToGroups : List (String × BillRec) → String → BillRec → ItemRec →
    List (String × BillRec)
  | [], key, rec, it => [(key, { rec with items := [it] })]
  | (k, r) :: rest, key, rec, it =>
    if k = key then (k, { r with items := r.items ++ [it] }) :: rest
    else (k, r) :: addToGroups rest key rec it

/-- Processing of one data row of `bills.xlsx` inside `read_bills_from_xlsx`:
pad to nine columns, group by `str(bill_no)`. -/
def groupStep (bills : List (String × BillRec)) (row : List Value) :
    List (String × BillRec) :=
  if rowSkip row then bills
  else
    let row3 := row ++ List.replicate 9 Value.vnone
    let g := fun i => row3.getD i Value.vnone
    addToGroups bills (pyStr (g 0))
      { billNo := g 0, dateTime := g 1, table := g 8, payment := g 7,
        total := g 6, items := [] }
      { name := g 2, qty := g 3, rate := g 4, amount := g 5 }

/-- Models `list(bills.values())`: the grouped bills in first-seen key order. -/
def groupBills (rows : List (List Value)) : List BillRec :=
  (rows.foldl groupStep []).map Prod.snd

/-- The sort key `int(x.get("billNo") or 0)`; `none` models a raised
exception. -/
def sortKeyOf (b : BillRec) : Option Int :=
  pyInt (if pyFalsy b.billNo then Value.vint 0 else b.billNo)

/-- Stable insertion for the sort on bills: a new element goes before the
first element whose key is not smaller. -/
def insertByKey (x : BillRec) : List BillRec → List BillRec
  | [] => [x]
  | y :: ys =>
    if (sortKeyOf y).getD 0 < (sortKeyOf x).getD 0 then y :: insertByKey x ys
    else x :: y :: ys

/-- Stable sort of the grouped bills by `int(billNo or 0)` ascending
(Python `list.sort` is stable). -/
def sortBills : List BillRec → List BillRec
  | [] => []
  | x :: xs => insertByKey x (sortBills xs)

/-- The function `read_bills_from_xlsx`: group, then `try: out.sort(key=...) except: pass`.
CPython precomputes all sort keys first, so a failing key leaves the list
in its original order. -/
def read_bills_from_xlsx (rows : List (List Value)) : List BillRec :=
  if ((groupBills rows).map sortKeyOf).all Option.isSome then sortBills (groupBills rows)
  else groupBills rows

/-! ## HTTP handlers (`api_menu` POST, `api_bills` POST) -/

/-- A handler outcome: `200 OK` or an error response. -/
inductive HttpResp : Type
  | ok : HttpResp
  | err (msg : String) : HttpResp
  deriving DecidableEq

/-- JSON payload of `POST /api/menu`; absent keys are `none`. -/
structure MenuPayload where
  category : Option Value := none
  name : Option Value := none
  price : Option Value := none
  deriving DecidableEq

/-- Handler for `POST /api/menu`: returns the response and the resulting state of the
`menu.xlsx` data rows. -/
def api_menu_post (rows : List (List Value)) (p : MenuPayload) :
    HttpResp × List (List Value) :=
  let name := pyStrip (pyStr (p.name.getD (Value.vstr "")))
  let price : Rat := (pyFloat (p.price.getD (Value.vint 0))).getD 0
  let cat := pyStrip (pyStr (p.category.getD (Value.vstr "")))
  if name = "" then (HttpResp.err "Missing name", rows)
  else
    let menu := load_menu_from_xlsx rows
    let menu2 := setdefaultAppend menu (if cat = "" then "Uncategorized" else cat)
      { name := name, price := price }
    (HttpResp.ok, write_menu_to_xlsx menu2)

/-- The `items` field of a bill payload: either a JSON list or some value
of another type (which `isinstance(..., list)` rejects). -/
inductive ItemsField : Type
  | isList (l : List ItemObj) : ItemsField
  | notList : ItemsField
  deriving DecidableEq

/-- JSON payload of `POST /api/bills`; absent keys are `none`. -/
structure BillPayload where
  billNo : Option Value := none
  dateTime : Option Value := none
  payment : Option Value := none
  total : Option Value := none
  table : Option Value := none
  items : Option ItemsField := none
  deriving DecidableEq

/-- The `bill_obj` dict handed to `append_bill_to_xlsx` after the handler
resolved `billNo` and `dateTime` in place. -/
def resolvedBill (now : String) (rows : List (List Value)) (p : BillPayload) :
    BillObj :=
  { billNo := some (match p.billNo with
      | none => Value.vint (next_bill_no rows)
      | some v => if pyFalsy v then Value.vint (next_bill_no rows) else v)
    dateTime := some (match p.dateTime with
      | none => Value.vstr now
      | some v => if pyFalsy v then Value.vstr now else v)
    payment := p.payment
    total := p.total
    table := p.table
    items := match p.items with
      | some (ItemsField.isList l) => some l
      | _ => none }

/-- Handler for `POST /api/bills`: validate `items`, default `billNo`/`dateTime`,
append; returns the response and the resulting `bills.xlsx` data rows. -/
def api_bills_post (now : String) (rows : List (List Value)) (p : BillPayload) :
    HttpResp × List (List Value) :=
  match p.items with
  | some ItemsField.notList => (HttpResp.err "Invalid items", rows)
  | _ => (HttpResp.ok, append_bill_to_xlsx now rows (resolvedBill now rows p))

/-! ## Helper lemmas: stripping -/

theorem stripList_eq (l : List Char) :
    stripList l = List.rdropWhile Char.isWhitespace (List.dropWhile Char.isWhitespace l) := rfl

theorem dropWhile_stripList (l : List Char) :
    List.dropWhile Char.isWhitespace (stripList l) = stripList l := by
  rw [stripList_eq]
  rcases hs : List.rdropWhile Char.isWhitespace (List.dropWhile Char.isWhitespace l) with _ | ⟨x, s⟩
  · simp
  · obtain ⟨t, ht⟩ := List.rdropWhile_prefix Char.isWhitespace
      (l := List.dropWhile Char.isWhitespace l)
    rw [hs] at ht
    have hx : Char.isWhitespace x = false := by
      have h := List.head?_dropWhile_not Char.isWhitespace l
      rw [← ht] at h
      simpa using h
    rw [List.dropWhile_cons, if_neg (by simp [hx])]

theorem rdropWhile_stripList (l : List Char) :
    List.rdropWhile Char.isWhitespace (stripList l) = stripList l := by
  rw [stripList_eq, List.rdropWhile_idempotent]

theorem stripList_idem (l : List Char) : stripList (stripList l) = stripList l := by
  rw [stripList_eq (stripList l), dropWhile_stripList, rdropWhile_stripList]

theorem pyStrip_idem (s : String) : pyStrip (pyStrip s) = pyStrip s := by
  simp [pyStrip, stripList_idem]

/-- The fallback category label is already stripped. -/
theorem pyStrip_uncategorized : pyStrip "Uncategorized" = "Uncategorized" := by decide

/-- The `cellText` output is a fixed point of `pyStrip`. -/
theorem pyStrip_cellText (v : Value) : pyStrip (cellText v) = cellText v := by
  simp [cellText, pyStrip_idem]

/-! ## Helper lemmas: `setdefaultAppend` -/

theorem setdefaultAppend_cons_ne (k' : String) (its : List MenuItem) (m : Menu)
    (k : String) (it : MenuItem) (h : k' ≠ k) :
    setdefaultAppend ((k', its) :: m) k it = (k', its) :: setdefaultAppend m k it := by
  simp [setdefaultAppend, h]

theorem setdefaultAppend_fresh (m : Menu) (k : String) (it : MenuItem)
    (h : ∀ e ∈ m, e.1 ≠ k) :
    setdefaultAppend m k it = m ++ [(k, [it])] := by
  induction m with
  | nil => rfl
  | cons e rest ih =>
    obtain ⟨k', its⟩ := e
    rw [setdefaultAppend_cons_ne k' its rest k it (h (k', its) (by simp))]
    rw [ih (fun e he => h e (by simp [he]))]
    simp

theorem setdefaultAppend_append_last (m : Menu) (k : String) (pre : List MenuItem)
    (it : MenuItem) (h : ∀ e ∈ m, e.1 ≠ k) :
    setdefaultAppend (m ++ [(k, pre)]) k it = m ++ [(k, pre ++ [it])] := by
  induction m with
  | nil => simp [setdefaultAppend]
  | cons e rest ih =>
    obtain ⟨k', its⟩ := e
    rw [List.cons_append, setdefaultAppend_cons_ne k' its (rest ++ [(k, pre)]) k it
      (h (k', its) (by simp))]
    rw [ih (fun e he => h e (by simp [he]))]
    simp

theorem setdefaultAppend_keys (m : Menu) (k : String) (it : MenuItem) :
    (setdefaultAppend m k it).map Prod.fst =
      if k ∈ m.map Prod.fst then m.map Prod.fst else m.map Prod.fst ++ [k] := by
  induction m with
  | nil => simp [setdefaultAppend]
  | cons e rest ih =>
    obtain ⟨k', its⟩ := e
    by_cases h : k' = k
    · subst h
      simp [setdefaultAppend]
    · rw [setdefaultAppend_cons_ne k' its rest k it h]
      simp only [List.map_cons, ih]
      by_cases hk : k ∈ rest.map Prod.fst
      · simp [hk, Ne.symm h]
      · simp [hk, Ne.symm h]

/-! ## Menu well-formedness and the load/write round trip -/

/-- Normal form of a category key or item name as produced by the loader. -/
def normStr (s : String) : Prop := pyStrip s = s ∧ s ≠ ""

/-- Invariant of every menu dict produced by `load_menu_from_xlsx`:
insertion-ordered distinct keys, stripped non-empty names, non-empty
item lists. -/
def MenuWF (m : Menu) : Prop :=
  (m.map Prod.fst).Nodup ∧
    ∀ e ∈ m, normStr e.1 ∧ e.2 ≠ [] ∧ ∀ it ∈ e.2, normStr it.name

theorem cellText_vstr (s : String) : cellText (Value.vstr s) = pyStrip s := by
  simp [cellText, pyStr]

/-- Reading back a row written by `write_menu_to_xlsx` performs the same
`setdefault`-append it was produced from, provided key and name are in
normal form. -/
theorem menuRowStep_pairRow (m : Menu) (k : String) (it : MenuItem)
    (hk : normStr k) (hn : normStr it.name) :
    menuRowStep m (pairRow (k, it)) = setdefaultAppend m k it := by
  obtain ⟨hk1, hk2⟩ := hk
  obtain ⟨hn1, hn2⟩ := hn
  simp only [menuRowStep, pairRow, List.take, List.length_cons, List.length_nil]
  norm_num
  simp only [List.getD_cons_zero, List.getD_cons_succ, cellText_vstr, hk1, hn1]
  have hp : priceCell [Value.vstr k, Value.vstr it.name, Value.vnum it.price]
      = Value.vnum it.price := by
    simp [priceCell, List.getD]
  rw [hp]
  simp only [pyFloat]
  simp [hn2, hk2]

/-- Fold a block of written rows: each row acts as a `setdefault`-append. -/
theorem foldl_menuRowStep_pairs (pairs : List (String × MenuItem)) (m : Menu)
    (h : ∀ p ∈ pairs, normStr p.1 ∧ normStr p.2.name) :
    List.foldl menuRowStep m (pairs.map pairRow) =
      pairs.foldl (fun a p => setdefaultAppend a p.1 p.2) m := by
  induction pairs generalizing m with
  | nil => rfl
  | cons p rest ih =>
    obtain ⟨hp1, hp2⟩ := h p (by simp)
    simp only [List.map_cons, List.foldl_cons]
    rw [menuRowStep_pairRow m p.1 p.2 hp1 hp2]
    exact ih _ (fun q hq => h q (by simp [hq]))

theorem foldl_setdefaultAppend_same_key (k : String) (its : List MenuItem)
    (m : Menu) (pre : List MenuItem) (h : ∀ e ∈ m, e.1 ≠ k) :
    List.foldl (fun a p => setdefaultAppend a p.1 p.2) (m ++ [(k, pre)])
        (its.map (fun it => (k, it))) =
      m ++ [(k, pre ++ its)] := by
  induction its generalizing pre with
  | nil => simp
  | cons it rest ih =>
    simp only [List.map_cons, List.foldl_cons]
    rw [setdefaultAppend_append_last m k pre it h, ih (pre ++ [it])]
    simp

theorem foldl_setdefaultAppend_avoid (k : String) (its : List MenuItem)
    (m : Menu) (pairs : List (String × MenuItem)) (h : ∀ p ∈ pairs, p.1 ≠ k) :
    List.foldl (fun a p => setdefaultAppend a p.1 p.2) ((k, its) :: m) pairs =
      (k, its) :: List.foldl (fun a p => setdefaultAppend a p.1 p.2) m pairs := by
  induction pairs generalizing m with
  | nil => rfl
  | cons p rest ih =>
    simp only [List.foldl_cons]
    rw [setdefaultAppend_cons_ne k its m p.1 p.2 (Ne.symm (h p (by simp)))]
    exact ih _ (fun q hq => h q (by simp [hq]))

theorem menuPairs_cons (k : String) (its : List MenuItem) (m : Menu) :
    menuPairs ((k, its) :: m) = its.map (fun it => (k, it)) ++ menuPairs m := by
  simp [menuPairs]

theorem mem_menuPairs_key (m : Menu) (p : String × MenuItem) (h : p ∈ menuPairs m) :
    p.1 ∈ m.map Prod.fst := by
  simp only [menuPairs, List.mem_flatMap] at h
  obtain ⟨e, he, hp⟩ := h
  simp only [List.mem_map] at hp
  obtain ⟨it, _, rfl⟩ := hp
  simp only [List.mem_map]
  exact ⟨e, he, rfl⟩

theorem mem_menuPairs_norm (m : Menu) (hWF : MenuWF m) (p : String × MenuItem)
    (h : p ∈ menuPairs m) : normStr p.1 ∧ normStr p.2.name := by
  simp only [menuPairs, List.mem_flatMap] at h
  obtain ⟨e, he, hp⟩ := h
  simp only [List.mem_map] at hp
  obtain ⟨it, hit, rfl⟩ := hp
  obtain ⟨hkey, _, hits⟩ := hWF.2 e he
  exact ⟨hkey, hits it hit⟩

/-- Round trip: reloading a written well-formed menu dict restores it. -/
theorem load_write_menu (m : Menu) (hWF : MenuWF m) :
    load_menu_from_xlsx (write_menu_to_xlsx m) = m := by
  induction m with
  | nil => rfl
  | cons e rest ih =>
    obtain ⟨k, its⟩ := e
    have hWFrest : MenuWF rest :=
      ⟨(List.nodup_cons.mp hWF.1).2, fun e he => hWF.2 e (by simp [he])⟩
    have hknotin : k ∉ rest.map Prod.fst := by
      have := hWF.1
      simp only [List.map_cons, List.nodup_cons] at this
      exact this.1
    obtain ⟨hkey, hne, hitems⟩ := hWF.2 (k, its) (by simp)
    obtain ⟨it0, its', rfl⟩ : ∃ it0 its', its = it0 :: its' := by
      cases its with
      | nil => exact absurd rfl hne
      | cons a b => exact ⟨a, b, rfl⟩
    unfold load_menu_from_xlsx write_menu_to_xlsx
    rw [menuPairs_cons, List.map_append, List.foldl_append]
    rw [foldl_menuRowStep_pairs ((it0 :: its').map (fun it => (k, it))) []
      (fun p hp => by
        rcases List.mem_map.mp hp with ⟨it, hit, rfl⟩
        exact ⟨hkey, hitems it hit⟩)]
    simp only [List.map_cons, List.foldl_cons]
    have h0 : setdefaultAppend [] k it0 = [] ++ [(k, [it0])] := rfl
    rw [h0, foldl_setdefaultAppend_same_key k its' [] [it0] (by simp)]
    simp only [List.nil_append, List.singleton_append]
    rw [foldl_menuRowStep_pairs (menuPairs rest) [(k, it0 :: its')]
      (mem_menuPairs_norm rest hWFrest)]
    have havoid := foldl_setdefaultAppend_avoid k (it0 :: its') [] (menuPairs rest)
      (fun p hp hpk => hknotin (hpk ▸ mem_menuPairs_key rest p hp))
    rw [havoid]
    rw [← foldl_menuRowStep_pairs (menuPairs rest) [] (mem_menuPairs_norm rest hWFrest)]
    unfold load_menu_from_xlsx write_menu_to_xlsx at ih
    rw [ih hWFrest]

/-- Each row either leaves the menu dict unchanged or performs one
`setdefault`-append with a stripped non-empty key and name. -/
theorem menuRowStep_eq_or (m : Menu) (row : List Value) :
    menuRowStep m row = m ∨
      ∃ k it, normStr k ∧ normStr it.name ∧ menuRowStep m row = setdefaultAppend m k it := by
  simp only [menuRowStep]
  split
  · exact Or.inl rfl
  · split
    · exact Or.inl rfl
    · split
      · exact Or.inl rfl
      · rename_i hname
        right
        refine ⟨_, _, ?_, ⟨pyStrip_cellText _, hname⟩, rfl⟩
        by_cases hcat : cellText ((row.take 3).getD 0 Value.vnone) = ""
        · rw [if_pos hcat]
          exact ⟨pyStrip_uncategorized, by decide⟩
        · rw [if_neg hcat]
          exact ⟨pyStrip_cellText _, hcat⟩

/-- Entries of a `setdefault`-append come from the old dict, possibly with
the new item appended, or are the fresh singleton entry. -/
theorem mem_setdefaultAppend (m : Menu) (k : String) (it : MenuItem)
    (e : String × List MenuItem) (he : e ∈ setdefaultAppend m k it) :
    e ∈ m ∨ e = (k, [it]) ∨ ∃ its, (k, its) ∈ m ∧ e = (k, its ++ [it]) := by
  induction m with
  | nil =>
    simp only [setdefaultAppend, List.mem_singleton] at he
    exact Or.inr (Or.inl he)
  | cons f rest ih =>
    obtain ⟨k', its'⟩ := f
    by_cases h : k' = k
    · subst h
      simp only [setdefaultAppend, if_pos rfl] at he
      rcases List.mem_cons.mp he with rfl | he2
      · exact Or.inr (Or.inr ⟨its', by simp, rfl⟩)
      · exact Or.inl (by simp [he2])
    · rw [setdefaultAppend_cons_ne k' its' rest k it h] at he
      rcases List.mem_cons.mp he with rfl | he
      · exact Or.inl (by simp)
      · rcases ih he with h1 | h1 | ⟨its, h1, h2⟩
        · exact Or.inl (by simp [h1])
        · exact Or.inr (Or.inl h1)
        · exact Or.inr (Or.inr ⟨its, by simp [h1], h2⟩)

theorem setdefaultAppend_WF (m : Menu) (k : String) (it : MenuItem)
    (hm : MenuWF m) (hk : normStr k) (hn : normStr it.name) :
    MenuWF (setdefaultAppend m k it) := by
  constructor
  · rw [setdefaultAppend_keys]
    by_cases hmem : k ∈ m.map Prod.fst
    · simpa [hmem] using hm.1
    · simp only [hmem, if_false]
      rw [List.nodup_append]
      refine ⟨hm.1, List.nodup_singleton k, ?_⟩
      intro a ha hak
      rw [List.mem_singleton.mp hak] at ha
      exact hmem ha
  · intro e he
    rcases mem_setdefaultAppend m k it e he with h | h | ⟨its, hits, rfl⟩
    · exact hm.2 e h
    · subst h
      refine ⟨hk, by simp, ?_⟩
      intro x hx
      rw [List.mem_singleton.mp hx]
      exact hn
    · obtain ⟨h1, _, h3⟩ := hm.2 (k, its) hits
      refine ⟨h1, by simp, ?_⟩
      intro x hx
      rcases List.mem_append.mp hx with hx | hx
      · exact h3 x hx
      · rw [List.mem_singleton.mp hx]
        exact hn

theorem foldl_menuRowStep_WF (rows : List (List Value)) (m : Menu) (hm : MenuWF m) :
    MenuWF (List.foldl menuRowStep m rows) := by
  induction rows generalizing m with
  | nil => exact hm
  | cons row rest ih =>
    simp only [List.foldl_cons]
    apply ih
    rcases menuRowStep_eq_or m row with h | ⟨k, it, hk, hn, h⟩
    · rw [h]
      exact hm
    · rw [h]
      exact setdefaultAppend_WF m k it hm hk hn

/-- The loader always produces a well-formed menu dict. -/
theorem load_menu_WF (rows : List (List Value)) : MenuWF (load_menu_from_xlsx rows) :=
  foldl_menuRowStep_WF rows [] ⟨List.nodup_nil, by simp⟩

/-! ## Category lookup (`menu[cat]` semantics for the claims) -/

/-- The item list stored under a category key (empty when absent). -/
def catItems : Menu → String → List MenuItem
  | [], _ => []
  | (k', its) :: rest, k => if k' = k then its else catItems rest k

theorem catItems_setdefaultAppend_self (m : Menu) (k : String) (it : MenuItem) :
    catItems (setdefaultAppend m k it) k = catItems m k ++ [it] := by
  induction m with
  | nil => simp [setdefaultAppend, catItems]
  | cons e rest ih =>
    obtain ⟨k', its'⟩ := e
    by_cases h : k' = k
    · subst h
      simp [setdefaultAppend, catItems]
    · rw [setdefaultAppend_cons_ne k' its' rest k it h]
      simp [catItems, h, ih]

theorem catItems_setdefaultAppend_ne (m : Menu) (k k2 : String) (it : MenuItem)
    (h : k2 ≠ k) : catItems (setdefaultAppend m k it) k2 = catItems m k2 := by
  induction m with
  | nil => simp [setdefaultAppend, catItems, Ne.symm h]
  | cons e rest ih =>
    obtain ⟨k', its'⟩ := e
    by_cases hk : k' = k
    · subst hk
      simp [setdefaultAppend, catItems, Ne.symm h]
    · rw [setdefaultAppend_cons_ne k' its' rest k it hk]
      by_cases hk2 : k' = k2
      · simp [catItems, hk2]
      · simp [catItems, hk2, ih]

/-- The category key under which `POST /api/menu` files the new item. -/
def menuKeyOf (p : MenuPayload) : String :=
  if pyStrip (pyStr (p.category.getD (Value.vstr ""))) = "" then "Uncategorized"
  else pyStrip (pyStr (p.category.getD (Value.vstr "")))

/-- The item appended by `POST /api/menu`. -/
def menuItemOf (p : MenuPayload) : MenuItem :=
  { name := pyStrip (pyStr (p.name.getD (Value.vstr "")))
    price := (pyFloat (p.price.getD (Value.vint 0))).getD 0 }

/-- Concrete inputs for the C3 witness. -/
def c3Rows : List (List Value) := [[Value.vstr "Drinks", Value.vstr "Tea", Value.vnum 20]]

def c3Payload : MenuPayload :=
  { category := some (Value.vstr "Drinks"), name := some (Value.vstr "Coffee"),
    price := some (Value.vnum 25) }

/-- C3: for every valid `(category, name, price ≥ 0)` payload with non-blank
name, `POST /api/menu` succeeds and the reloaded catalog is exactly the old
one with the item appended once under its category: its count there grows by
one and every other category is unchanged. -/
theorem c3_add_menu_item (rows : List (List Value)) (p : MenuPayload)
    (hname : pyStrip (pyStr (p.name.getD (Value.vstr ""))) ≠ "")
    (_hprice : 0 ≤ ((pyFloat (p.price.getD (Value.vint 0))).getD 0 : Rat)) :
    (api_menu_post rows p).1 = HttpResp.ok ∧
    load_menu_from_xlsx (api_menu_post rows p).2 =
      setdefaultAppend (load_menu_from_xlsx rows) (menuKeyOf p) (menuItemOf p) ∧
    (catItems (load_menu_from_xlsx (api_menu_post rows p).2) (menuKeyOf p)).count (menuItemOf p)
      = (catItems (load_menu_from_xlsx rows) (menuKeyOf p)).count (menuItemOf p) + 1 ∧
    ∀ k, k ≠ menuKeyOf p →
      catItems (load_menu_from_xlsx (api_menu_post rows p).2) k
        = catItems (load_menu_from_xlsx rows) k := by
  have hkey : normStr (menuKeyOf p) := by
    unfold menuKeyOf
    by_cases hcat : pyStrip (pyStr (p.category.getD (Value.vstr ""))) = ""
    · rw [if_pos hcat]
      exact ⟨pyStrip_uncategorized, by decide⟩
    · rw [if_neg hcat]
      exact ⟨pyStrip_idem _, hcat⟩
  have hitem : normStr (menuItemOf p).name := ⟨pyStrip_idem _, hname⟩
  have hpost : api_menu_post rows p =
      (HttpResp.ok, write_menu_to_xlsx (setdefaultAppend (load_menu_from_xlsx rows)
        (menuKeyOf p) (menuItemOf p))) := by
    unfold api_menu_post menuKeyOf menuItemOf
    rw [if_neg hname]
  have hWF2 := setdefaultAppend_WF _ _ _ (load_menu_WF rows) hkey hitem
  have hload : load_menu_from_xlsx (api_menu_post rows p).2 =
      setdefaultAppend (load_menu_from_xlsx rows) (menuKeyOf p) (menuItemOf p) := by
    rw [hpost]
    exact load_write_menu _ hWF2
  refine ⟨by rw [hpost], hload, ?_, ?_⟩
  · rw [hload, catItems_setdefaultAppend_self]
    simp
  · intro k hk
    rw [hload, catItems_setdefaultAppend_ne _ _ _ _ hk]

theorem c3_add_menu_item_witness :
    (api_menu_post c3Rows c3Payload).1 = HttpResp.ok ∧
    load_menu_from_xlsx (api_menu_post c3Rows c3Payload).2 =
      setdefaultAppend (load_menu_from_xlsx c3Rows) (menuKeyOf c3Payload) (menuItemOf c3Payload) ∧
    (catItems (load_menu_from_xlsx (api_menu_post c3Rows c3Payload).2)
        (menuKeyOf c3Payload)).count (menuItemOf c3Payload)
      = (catItems (load_menu_from_xlsx c3Rows) (menuKeyOf c3Payload)).count (menuItemOf c3Payload)
          + 1 ∧
    ∀ k, k ≠ menuKeyOf c3Payload →
      catItems (load_menu_from_xlsx (api_menu_post c3Rows c3Payload).2) k
        = catItems (load_menu_from_xlsx c3Rows) k :=
  c3_add_menu_item c3Rows c3Payload (by decide) (by decide)

/-- C6: a `POST /api/menu` whose item name is blank after stripping is
rejected with the validation error and leaves the catalog file untouched. -/
theorem c6_blank_name_rejected (rows : List (List Value)) (p : MenuPayload)
    (h : pyStrip (pyStr (p.name.getD (Value.vstr ""))) = "") :
    api_menu_post rows p = (HttpResp.err "Missing name", rows) := by
  unfold api_menu_post
  rw [if_pos h]

/-- Concrete blank-name payload for the C6 witness. -/
def c6Payload : MenuPayload :=
  { category := some (Value.vstr "Drinks"), name := some (Value.vstr "   "),
    price := some (Value.vnum 25) }

theorem c6_blank_name_rejected_witness :
    api_menu_post c3Rows c6Payload = (HttpResp.err "Missing name", c3Rows) :=
  c6_blank_name_rejected c3Rows c6Payload (by decide)

/-- C4 counterexample: the claim says a row with a missing (`None`) price
cell is dropped; in fact the loader defaults its price to `0` and keeps it. -/
theorem c4_counterexample :
    load_menu_from_xlsx [[Value.vstr "Cat", Value.vstr "Tea", Value.vnone]]
      = [("Cat", [{ name := "Tea", price := 0 }])] := by decide

/-- C4 (amended): a row whose price cell is present and is neither `None`
nor the empty string and fails numeric coercion is dropped entirely; a row
whose price cell is `None` or missing is instead kept with price `0`
(when its name is non-blank). -/
theorem c4_price_drop_amended (c0 c1 c2 : Value) (rest : List Value)
    (h2 : c2 ≠ Value.vnone) (h3 : c2 ≠ Value.vstr "") (h4 : pyFloat c2 = none) :
    (∀ acc, menuRowStep acc (c0 :: c1 :: c2 :: rest) = acc) ∧
    (∀ pre post, load_menu_from_xlsx (pre ++ (c0 :: c1 :: c2 :: rest) :: post)
        = load_menu_from_xlsx (pre ++ post)) ∧
    (∀ acc, cellText c1 ≠ "" →
      menuRowStep acc [c0, c1, Value.vnone]
        = setdefaultAppend acc (if cellText c0 = "" then "Uncategorized" else cellText c0)
            { name := cellText c1, price := 0 } ∧
      menuRowStep acc [c0, c1]
        = setdefaultAppend acc (if cellText c0 = "" then "Uncategorized" else cellText c0)
            { name := cellText c1, price := 0 }) := by
  have hstep : ∀ acc, menuRowStep acc (c0 :: c1 :: c2 :: rest) = acc := by
    intro acc
    simp only [menuRowStep]
    have hc : (c0 :: c1 :: c2 :: rest).take 3 = [c0, c1, c2] := by simp
    rw [hc, if_neg (by simp)]
    have hp : priceCell [c0, c1, c2] = c2 := by
      simp [priceCell, List.getD, h2, h3]
    rw [hp, h4]
  refine ⟨hstep, ?_, ?_⟩
  · intro pre post
    unfold load_menu_from_xlsx
    rw [List.foldl_append, List.foldl_append, List.foldl_cons, hstep]
  · intro acc hname
    constructor
    · simp only [menuRowStep]
      have hc : ([c0, c1, Value.vnone] : List Value).take 3 = [c0, c1, Value.vnone] := by simp
      rw [hc, if_neg (by simp)]
      have hp : priceCell [c0, c1, Value.vnone] = Value.vint 0 := by
        simp [priceCell, List.getD]
      rw [hp]
      simp only [pyFloat, List.getD_cons_succ, List.getD_cons_zero, Int.cast_zero]
      rw [if_neg hname]
    · simp only [menuRowStep]
      have hc : ([c0, c1] : List Value).take 3 = [c0, c1] := by simp
      rw [hc, if_neg (by simp)]
      have hp : priceCell [c0, c1] = Value.vint 0 := by
        simp [priceCell]
      rw [hp]
      simp only [pyFloat, List.getD_cons_succ, List.getD_cons_zero, Int.cast_zero]
      rw [if_neg hname]

theorem c4_price_drop_amended_witness :
    (∀ acc, menuRowStep acc [Value.vstr "Cat", Value.vstr "Tea", Value.vstr "abc"] = acc) ∧
    (∀ acc, cellText (Value.vstr "Tea") ≠ "" →
      menuRowStep acc [Value.vstr "Cat", Value.vstr "Tea", Value.vnone]
        = setdefaultAppend acc
            (if cellText (Value.vstr "Cat") = "" then "Uncategorized"
             else cellText (Value.vstr "Cat"))
            { name := cellText (Value.vstr "Tea"), price := 0 } ∧
      menuRowStep acc [Value.vstr "Cat", Value.vstr "Tea"]
        = setdefaultAppend acc
            (if cellText (Value.vstr "Cat") = "" then "Uncategorized"
             else cellText (Value.vstr "Cat"))
            { name := cellText (Value.vstr "Tea"), price := 0 }) :=
  ⟨(c4_price_drop_amended (Value.vstr "Cat") (Value.vstr "Tea") (Value.vstr "abc") []
      (by decide) (by decide) (by decide)).1,
   (c4_price_drop_amended (Value.vstr "Cat") (Value.vstr "Tea") (Value.vstr "abc") []
      (by decide) (by decide) (by decide)).2.2⟩

/-- C9: the loader strips category and item-name cells before use: a
whitespace-only name drops the row, a whitespace-only category files the
row under "Uncategorized", and every key and item name of a loaded catalog
is a stripped non-empty string. -/
theorem c9_strip :
    (∀ (acc : Menu) (c0 c1 : Value) (rest : List Value),
      cellText c1 = "" → menuRowStep acc (c0 :: c1 :: rest) = acc) ∧
    (∀ (acc : Menu) (c0 c1 : Value) (rest : List Value) (q : Rat),
      cellText c0 = "" → cellText c1 ≠ "" →
      pyFloat (priceCell ((c0 :: c1 :: rest).take 3)) = some q →
      menuRowStep acc (c0 :: c1 :: rest)
        = setdefaultAppend acc "Uncategorized" { name := cellText c1, price := q }) ∧
    (∀ (rows : List (List Value)) (e : String × List MenuItem),
      e ∈ load_menu_from_xlsx rows →
      pyStrip e.1 = e.1 ∧ e.1 ≠ "" ∧ ∀ it ∈ e.2, pyStrip it.name = it.name ∧ it.name ≠ "") := by
  refine ⟨?_, ?_, ?_⟩
  · intro acc c0 c1 rest h1
    simp only [menuRowStep, List.take_succ_cons, List.getD_cons_succ, List.getD_cons_zero]
    rw [if_neg (by simp)]
    rcases pyFloat (priceCell (c0 :: c1 :: rest.take 1)) with _ | q
    · rfl
    · simp [h1]
  · intro acc c0 c1 rest q h0 h1 hpf
    simp only [List.take_succ_cons] at hpf
    simp only [menuRowStep, List.take_succ_cons, List.getD_cons_succ, List.getD_cons_zero]
    rw [if_neg (by simp), hpf]
    simp [h0, h1]
  · intro rows e he
    obtain ⟨h1, _, h3⟩ := (load_menu_WF rows).2 e he
    exact ⟨h1.1, h1.2, fun it hit => ⟨(h3 it hit).1, (h3 it hit).2⟩⟩

theorem c9_strip_witness :
    menuRowStep [] [Value.vstr "Drinks", Value.vstr "   "] = [] ∧
    menuRowStep [] [Value.vstr "  ", Value.vstr " Tea ", Value.vnum 20]
      = setdefaultAppend [] "Uncategorized"
          { name := cellText (Value.vstr " Tea "), price := 20 } :=
  ⟨c9_strip.1 [] (Value.vstr "Drinks") (Value.vstr "   ") [] (by decide),
   c9_strip.2.1 [] (Value.vstr "  ") (Value.vstr " Tea ") [Value.vnum 20] 20
     (by decide) (by decide) (by decide)⟩

/-! ## Bill numbering: `next_bill_no` -/

/-- The bill numbers `next_bill_no` successfully parses: first cells of
non-skipped rows on which `int(...)` succeeds. -/
def parsedBillNos (rows : List (List Value)) : List Int :=
  rows.filterMap (fun row =>
    if row.isEmpty || row.getD 0 Value.vnone = Value.vnone then none
    else pyInt (row.getD 0 Value.vnone))

theorem parsedBillNos_append (xs ys : List (List Value)) :
    parsedBillNos (xs ++ ys) = parsedBillNos xs ++ parsedBillNos ys := by
  simp [parsedBillNos]

theorem nextBillStep_eq_max (acc : Int) (row : List Value) :
    nextBillStep acc row =
      match (if row.isEmpty || row.getD 0 Value.vnone = Value.vnone then none
             else pyInt (row.getD 0 Value.vnone)) with
      | none => acc
      | some v => max acc v := by
  unfold nextBillStep
  split
  · rfl
  · cases hpi : pyInt (row.getD 0 Value.vnone) with
    | none => rfl
    | some v =>
      by_cases hlt : acc < v
      · simp [hlt, max_eq_right (le_of_lt hlt)]
      · simp [hlt, max_eq_left (le_of_not_lt hlt)]

theorem foldl_nextBillStep_eq (rows : List (List Value)) (acc : Int) :
    rows.foldl nextBillStep acc = (parsedBillNos rows).foldl max acc := by
  induction rows generalizing acc with
  | nil => rfl
  | cons row rest ih =>
    simp only [List.foldl_cons, parsedBillNos, List.filterMap_cons]
    rw [nextBillStep_eq_max]
    rcases h : (if row.isEmpty || row.getD 0 Value.vnone = Value.vnone then none
        else pyInt (row.getD 0 Value.vnone)) with _ | v
    · exact ih acc
    · simp only [List.foldl_cons]
      exact ih (max acc v)

theorem le_foldl_max (l : List Int) (acc : Int) : acc ≤ l.foldl max acc := by
  induction l generalizing acc with
  | nil => exact le_refl acc
  | cons x rest ih => exact le_trans (le_max_left acc x) (ih (max acc x))

theorem mem_le_foldl_max (l : List Int) (v : Int) (hv : v ∈ l) :
    ∀ acc, v ≤ l.foldl max acc := by
  induction hv with
  | head rest =>
    intro acc
    exact le_trans (le_max_right acc v) (le_foldl_max rest (max acc v))
  | tail x hmem ih =>
    intro acc
    exact ih (max acc x)

/-- C8: `next_bill_no` always returns at least 1, whatever the ledger
holds (including only zero or negative bill numbers): the maximum tracker
starts at 0 and never decreases. -/
theorem c8_next_bill_no_positive (rows : List (List Value)) : 1 ≤ next_bill_no rows := by
  unfold next_bill_no
  rw [foldl_nextBillStep_eq]
  have := le_foldl_max (parsedBillNos rows) 0
  omega

/-- C2 counterexample: on a ledger whose only row has bill number `-5`,
the only parsed value is `-5`, yet `next_bill_no` returns `1`, not
`-5 + 1 = -4` as "one plus the maximum parsed value" demands. -/
theorem c2_counterexample :
    next_bill_no [[Value.vint (-5)]] = 1 ∧
    parsedBillNos [[Value.vint (-5)]] = [-5] := by decide

/-- Concrete line item for the C2 witness. -/
def c2Item : ItemObj :=
  { name := some (Value.vstr "Tea"), qty := some (Value.vint 2),
    rate := some (Value.vint 20), amount := some (Value.vint 40) }

/-- Concrete bill for the C2 witness. -/
def c2Bill : BillObj :=
  { billNo := some (Value.vint 5), table := some (Value.vstr "Inside 1"),
    payment := some (Value.vstr "Cash"), total := some (Value.vnum 40),
    items := some [c2Item] }

/-- C2 (amended): `next_bill_no` returns one plus the maximum of 0 and all
successfully parsed first-column values (so never less than 1); on an empty
ledger it returns 1; and once a bill with billNo 5 and at least one line
item has been appended, every later call — after any further appends —
returns at least 6. -/
theorem c2_next_bill_no_amended (rows : List (List Value)) :
    next_bill_no rows = (parsedBillNos rows).foldl max 0 + 1 ∧
    next_bill_no [] = 1 ∧
    ∀ (now : String) (b : BillObj) (its : List ItemObj) (more : List (List Value)),
      b.billNo = some (Value.vint 5) → b.items = some its → its ≠ [] →
      6 ≤ next_bill_no (append_bill_to_xlsx now rows b ++ more) := by
  refine ⟨by unfold next_bill_no; rw [foldl_nextBillStep_eq], rfl, ?_⟩
  intro now b its more hbn hits hne
  obtain ⟨it0, its', rfl⟩ : ∃ it0 its', its = it0 :: its' := by
    cases its with
    | nil => exact absurd rfl hne
    | cons a b => exact ⟨a, b, rfl⟩
  have happ : append_bill_to_xlsx now rows b =
      rows ++ (it0 :: its').map (billRow (Value.vint 5)
        (b.dateTime.getD (Value.vstr now)) (b.total.getD (Value.vnum 0))
        (b.payment.getD (Value.vstr "")) (b.table.getD (Value.vstr ""))) := by
    unfold append_bill_to_xlsx
    rw [hbn, hits]
    rfl
  unfold next_bill_no
  rw [foldl_nextBillStep_eq]
  have h5 : (5 : Int) ∈ parsedBillNos (append_bill_to_xlsx now rows b ++ more) := by
    rw [happ, List.append_assoc, parsedBillNos_append, parsedBillNos_append]
    apply List.mem_append_right
    apply List.mem_append_left
    simp [parsedBillNos, billRow, pyInt]
  have hle := mem_le_foldl_max _ 5 h5 0
  omega

theorem c2_next_bill_no_amended_witness :
    next_bill_no [] = (parsedBillNos []).foldl max 0 + 1 ∧
    6 ≤ next_bill_no (append_bill_to_xlsx "2024-01-01" [] c2Bill ++ []) :=
  ⟨(c2_next_bill_no_amended []).1,
   (c2_next_bill_no_amended []).2.2 "2024-01-01" c2Bill [c2Item] [] rfl rfl (by decide)⟩

/-! ## Ledger read-back: grouping and sorting lemmas -/

theorem addToGroups_cons_ne (k : String) (r : BillRec) (rest : List (String × BillRec))
    (key : String) (rec : BillRec) (it : ItemRec) (h : k ≠ key) :
    addToGroups ((k, r) :: rest) key rec it = (k, r) :: addToGroups rest key rec it := by
  simp [addToGroups, h]

theorem addToGroups_fresh (g : List (String × BillRec)) (key : String) (rec : BillRec)
    (it : ItemRec) (h : ∀ e ∈ g, e.1 ≠ key) :
    addToGroups g key rec it = g ++ [(key, { rec with items := [it] })] := by
  induction g with
  | nil => rfl
  | cons e rest ih =>
    obtain ⟨k, r⟩ := e
    rw [addToGroups_cons_ne k r rest key rec it (h (k, r) (by simp))]
    rw [ih (fun e he => h e (by simp [he]))]
    simp

theorem addToGroups_append_last (g : List (String × BillRec)) (key : String)
    (r : BillRec) (rec : BillRec) (it : ItemRec) (h : ∀ e ∈ g, e.1 ≠ key) :
    addToGroups (g ++ [(key, r)]) key rec it
      = g ++ [(key, { r with items := r.items ++ [it] })] := by
  induction g with
  | nil => simp [addToGroups]
  | cons e rest ih =>
    obtain ⟨k, r'⟩ := e
    rw [List.cons_append, addToGroups_cons_ne k r' (rest ++ [(key, r)]) key rec it
      (h (k, r') (by simp))]
    rw [ih (fun e he => h e (by simp [he]))]
    simp

theorem addToGroups_keys (g : List (String × BillRec)) (key : String) (rec : BillRec)
    (it : ItemRec) :
    (addToGroups g key rec it).map Prod.fst =
      if key ∈ g.map Prod.fst then g.map Prod.fst else g.map Prod.fst ++ [key] := by
  induction g with
  | nil => simp [addToGroups]
  | cons e rest ih =>
    obtain ⟨k, r⟩ := e
    by_cases h : k = key
    · subst h
      simp [addToGroups]
    · rw [addToGroups_cons_ne k r rest key rec it h]
      simp only [List.map_cons, ih]
      by_cases hk : key ∈ rest.map Prod.fst
      · simp [hk, Ne.symm h]
      · simp [hk, Ne.symm h]

/-- The record and item a ledger row contributes during grouping. -/
def rowRec (row : List Value) : BillRec :=
  { billNo := (row ++ List.replicate 9 Value.vnone).getD 0 Value.vnone
    dateTime := (row ++ List.replicate 9 Value.vnone).getD 1 Value.vnone
    table := (row ++ List.replicate 9 Value.vnone).getD 8 Value.vnone
    payment := (row ++ List.replicate 9 Value.vnone).getD 7 Value.vnone
    total := (row ++ List.replicate 9 Value.vnone).getD 6 Value.vnone
    items := [] }

/-- The `ItemRec` the reader reconstructs from a row appended for `it`. -/
def itemOfObj (it : ItemObj) : ItemRec :=
  { name := it.name.getD (Value.vstr ""), qty := it.qty.getD (Value.vint 0),
    rate := it.rate.getD (Value.vint 0), amount := it.amount.getD (Value.vint 0) }

def rowItem (row : List Value) : ItemRec :=
  { name := (row ++ List.replicate 9 Value.vnone).getD 2 Value.vnone
    qty := (row ++ List.replicate 9 Value.vnone).getD 3 Value.vnone
    rate := (row ++ List.replicate 9 Value.vnone).getD 4 Value.vnone
    amount := (row ++ List.replicate 9 Value.vnone).getD 5 Value.vnone }

theorem groupStep_eq (g : List (String × BillRec)) (row : List Value) :
    groupStep g row =
      if rowSkip row then g
      else addToGroups g
        (pyStr ((row ++ List.replicate 9 Value.vnone).getD 0 Value.vnone))
        (rowRec row) (rowItem row) := rfl

/-- Every key of the grouping dict is the string image of the first cell of
some row. -/
theorem mem_keys_foldl_groupStep (rows : List (List Value))
    (g : List (String × BillRec)) (k : String)
    (hk : k ∈ (List.foldl groupStep g rows).map Prod.fst) :
    k ∈ g.map Prod.fst ∨ ∃ row ∈ rows, k = pyStr (row.getD 0 Value.vnone) := by
  induction rows generalizing g with
  | nil => exact Or.inl hk
  | cons row rest ih =>
    simp only [List.foldl_cons] at hk
    rcases ih (groupStep g row) hk with h | ⟨row', hrow', rfl⟩
    · rw [groupStep_eq] at h
      by_cases hskip : rowSkip row
      · rw [if_pos hskip] at h
        exact Or.inl h
      · rw [if_neg hskip, addToGroups_keys] at h
        have hgd : (row ++ List.replicate 9 Value.vnone).getD 0 Value.vnone
            = row.getD 0 Value.vnone := by
          cases row <;> simp [List.getD]
        split at h
        · exact Or.inl h
        · rcases List.mem_append.mp h with h2 | h2
          · exact Or.inl h2
          · rw [List.mem_singleton.mp h2, hgd]
            exact Or.inr ⟨row, by simp, rfl⟩
    · exact Or.inr ⟨row', by simp [hrow'], rfl⟩

/-- Appended rows of one bill form a single new group at the end of the
dict, accumulating the items in order. -/
theorem rowItem_billRow (bn dt tt pm tb : Value) (it : ItemObj) :
    rowItem (billRow bn dt tt pm tb it) = itemOfObj it := by
  simp [rowItem, billRow, itemOfObj, List.getD]

theorem foldl_groupStep_run (bn dt tt pm tb : Value) (hbn : bn ≠ Value.vnone)
    (its : List ItemObj) (g : List (String × BillRec)) (r : BillRec)
    (hfresh : ∀ e ∈ g, e.1 ≠ pyStr bn) :
    List.foldl groupStep (g ++ [(pyStr bn, r)]) (its.map (billRow bn dt tt pm tb))
      = g ++ [(pyStr bn, { r with items := r.items ++ its.map itemOfObj })] := by
  induction its generalizing r with
  | nil => simp
  | cons it rest ih =>
    simp only [List.map_cons, List.foldl_cons]
    have hskip : rowSkip (billRow bn dt tt pm tb it) = false := by
      simp [rowSkip, billRow, hbn]
    rw [groupStep_eq, hskip, if_neg (by simp)]
    have hkey : (billRow bn dt tt pm tb it ++ List.replicate 9 Value.vnone).getD 0
        Value.vnone = bn := by
      simp [billRow, List.getD]
    rw [hkey, addToGroups_append_last g (pyStr bn) r _ _ hfresh]
    rw [ih ({ r with items := r.items ++ [rowItem (billRow bn dt tt pm tb it)] })]
    simp [rowItem_billRow]

theorem insertByKey_perm (x : BillRec) (l : List BillRec) :
    (insertByKey x l).Perm (x :: l) := by
  induction l with
  | nil => exact List.Perm.refl _
  | cons y ys ih =>
    unfold insertByKey
    split
    · exact ((ih.cons y).trans (List.Perm.swap x y ys)).symm.symm
    · exact List.Perm.refl _

theorem sortBills_perm (l : List BillRec) : (sortBills l).Perm l := by
  induction l with
  | nil => exact List.Perm.refl _
  | cons x xs ih =>
    unfold sortBills
    exact (insertByKey_perm x (sortBills xs)).trans (ih.cons x)

theorem insertByKey_sorted (x : BillRec) (l : List BillRec)
    (hl : l.Pairwise (fun a c => (sortKeyOf a).getD 0 ≤ (sortKeyOf c).getD 0)) :
    (insertByKey x l).Pairwise (fun a c => (sortKeyOf a).getD 0 ≤ (sortKeyOf c).getD 0) := by
  induction l with
  | nil => simp [insertByKey]
  | cons y ys ih =>
    unfold insertByKey
    rcases List.pairwise_cons.mp hl with ⟨hy, hys⟩
    split
    · rename_i hlt
      refine List.pairwise_cons.mpr ⟨?_, ih hys⟩
      intro a ha
      rcases List.mem_cons.mp ((insertByKey_perm x ys).mem_iff.mp ha) with rfl | ha2
      · exact le_of_lt hlt
      · exact hy a ha2
    · rename_i hnlt
      refine List.pairwise_cons.mpr ⟨?_, hl⟩
      intro a ha
      rcases List.mem_cons.mp ha with rfl | ha2
      · exact le_of_not_lt hnlt
      · exact le_trans (le_of_not_lt hnlt) (hy a ha2)

theorem sortBills_sorted (l : List BillRec) :
    (sortBills l).Pairwise (fun a c => (sortKeyOf a).getD 0 ≤ (sortKeyOf c).getD 0) := by
  induction l with
  | nil => simp [sortBills]
  | cons x xs ih => exact insertByKey_sorted x (sortBills xs) ih

theorem mem_read_bills (rows : List (List Value)) (b : BillRec) :
    b ∈ read_bills_from_xlsx rows ↔ b ∈ groupBills rows := by
  unfold read_bills_from_xlsx
  split
  · exact (sortBills_perm (groupBills rows)).mem_iff
  · exact Iff.rfl

/-- The bill header record a group starts from. -/
def recOfBill (bn dt tt pm tb : Value) : BillRec :=
  { billNo := bn, dateTime := dt, table := tb, payment := pm, total := tt, items := [] }

theorem rowRec_billRow (bn dt tt pm tb : Value) (it : ItemObj) :
    rowRec (billRow bn dt tt pm tb it) = recOfBill bn dt tt pm tb := by
  simp [rowRec, billRow, recOfBill, List.getD]

theorem foldl_groupStep_run_fresh (bn dt tt pm tb : Value) (hbn : bn ≠ Value.vnone)
    (it0 : ItemObj) (its : List ItemObj) (g : List (String × BillRec))
    (hfresh : ∀ e ∈ g, e.1 ≠ pyStr bn) :
    List.foldl groupStep g ((it0 :: its).map (billRow bn dt tt pm tb))
      = g ++ [(pyStr bn,
          { recOfBill bn dt tt pm tb with items := (it0 :: its).map itemOfObj })] := by
  simp only [List.map_cons, List.foldl_cons]
  have hskip : rowSkip (billRow bn dt tt pm tb it0) = false := by
    simp [rowSkip, billRow, hbn]
  rw [groupStep_eq, hskip, if_neg (by simp)]
  have hkey : (billRow bn dt tt pm tb it0 ++ List.replicate 9 Value.vnone).getD 0
      Value.vnone = bn := by
    simp [billRow, List.getD]
  rw [hkey, addToGroups_fresh g (pyStr bn) _ _ hfresh]
  rw [foldl_groupStep_run bn dt tt pm tb hbn its g _ hfresh]
  simp [rowRec_billRow, rowItem_billRow]

/-! ## C1: append / load round trip -/

/-- C1 counterexample input: a bill with an explicit billNo and an empty
items list. -/
def c1Bill : BillObj :=
  { billNo := some (Value.vint 7), dateTime := some (Value.vstr "2024-01-01T10:00:00"),
    payment := some (Value.vstr "Cash"), total := some (Value.vnum 45),
    table := some (Value.vstr "Outside 1"), items := some [] }

/-- C1 counterexample: appending a bill whose items list is empty writes
zero rows, so the reloaded ledger is empty and contains no bill with
billNo 7 — the round trip fails for such bills. -/
theorem c1_counterexample :
    read_bills_from_xlsx (append_bill_to_xlsx "2024-01-01T10:00:00" [] c1Bill) = [] := by
  decide

/-- C1 (amended): for every bill with an explicit non-`None` billNo, at
least one line item, appended to a ledger none of whose rows carries a
first cell with the same string image, the reloaded ledger contains a bill
whose billNo is the appended one and whose items are exactly the appended
items (same length, matching name/qty/rate/amount with the handler's
per-field defaults). -/
theorem c1_roundtrip_amended (now : String) (rows : List (List Value)) (b : BillObj)
    (bnv : Value) (its : List ItemObj)
    (hbn : b.billNo = some bnv) (hbn0 : bnv ≠ Value.vnone)
    (hits : b.items = some its) (hne : its ≠ [])
    (hfresh : ∀ row ∈ rows, pyStr (row.getD 0 Value.vnone) ≠ pyStr bnv) :
    ∃ bill ∈ read_bills_from_xlsx (append_bill_to_xlsx now rows b),
      bill.billNo = bnv ∧ bill.items.length = its.length ∧
      bill.items = its.map itemOfObj := by
  obtain ⟨it0, its', rfl⟩ : ∃ a l, its = a :: l := by
    cases its with
    | nil => exact absurd rfl hne
    | cons a l => exact ⟨a, l, rfl⟩
  have happ : append_bill_to_xlsx now rows b =
      rows ++ (it0 :: its').map (billRow bnv (b.dateTime.getD (Value.vstr now))
        (b.total.getD (Value.vnum 0)) (b.payment.getD (Value.vstr ""))
        (b.table.getD (Value.vstr ""))) := by
    unfold append_bill_to_xlsx
    rw [hbn, hits]
    rfl
  have hfreshG : ∀ e ∈ List.foldl groupStep [] rows, e.1 ≠ pyStr bnv := by
    intro e he hk
    rcases mem_keys_foldl_groupStep rows [] e.1 (List.mem_map_of_mem Prod.fst he) with
      h | ⟨row, hrow, hkey⟩
    · simp at h
    · exact hfresh row hrow (hkey.symm.trans hk)
  have hgroups : List.foldl groupStep [] (append_bill_to_xlsx now rows b)
      = List.foldl groupStep [] rows ++ [(pyStr bnv,
          { recOfBill bnv (b.dateTime.getD (Value.vstr now)) (b.total.getD (Value.vnum 0))
              (b.payment.getD (Value.vstr "")) (b.table.getD (Value.vstr "")) with
            items := (it0 :: its').map itemOfObj })] := by
    rw [happ, List.foldl_append]
    exact foldl_groupStep_run_fresh bnv _ _ _ _ hbn0 it0 its' _ hfreshG
  refine ⟨{ recOfBill bnv (b.dateTime.getD (Value.vstr now)) (b.total.getD (Value.vnum 0))
      (b.payment.getD (Value.vstr "")) (b.table.getD (Value.vstr "")) with
    items := (it0 :: its').map itemOfObj }, ?_, rfl, by simp, rfl⟩
  rw [mem_read_bills]
  unfold groupBills
  rw [hgroups, List.map_append]
  simp

/-- Concrete existing ledger row and appended bill for the C1 witness. -/
def c1WitnessRows : List (List Value) :=
  [[Value.vint 1, Value.vstr "d0", Value.vstr "Coffee", Value.vint 1, Value.vint 25,
    Value.vint 25, Value.vint 25, Value.vstr "Cash", Value.vstr "Inside 1"]]

def c1WitnessItem : ItemObj :=
  { name := some (Value.vstr "Tea"), qty := some (Value.vint 2),
    rate := some (Value.vint 20), amount := some (Value.vint 40) }

def c1WitnessBill : BillObj :=
  { billNo := some (Value.vint 2), dateTime := some (Value.vstr "2024-01-02T09:00:00"),
    payment := some (Value.vstr "UPI"), total := some (Value.vnum 40),
    table := some (Value.vstr "Outside 2"), items := some [c1WitnessItem] }

theorem c1_roundtrip_amended_witness :
    ∃ bill ∈ read_bills_from_xlsx
        (append_bill_to_xlsx "2024-01-02T09:00:00" c1WitnessRows c1WitnessBill),
      bill.billNo = Value.vint 2 ∧ bill.items.length = [c1WitnessItem].length ∧
      bill.items = [c1WitnessItem].map itemOfObj :=
  c1_roundtrip_amended "2024-01-02T09:00:00" c1WitnessRows c1WitnessBill
    (Value.vint 2) [c1WitnessItem] rfl (by decide) rfl (by decide) (by decide)

/-! ## C5: sort fallback on read -/

/-- C5 counterexample rows: three one-line bills with billNos `""`, `5`, `2`. -/
def c5Rows : List (List Value) :=
  [[Value.vstr "", Value.vstr "d1", Value.vstr "A"],
   [Value.vint 5, Value.vstr "d2", Value.vstr "B"],
   [Value.vint 2, Value.vstr "d3", Value.vstr "C"]]

/-- C5 counterexample: the first bill's billNo `""` fails integer parsing,
yet the result is still sorted (the sort key is `int(billNo or 0)`, and
`""` is falsy, so it sorts as 0) instead of keeping first-seen grouping
order as the claim demands. -/
theorem c5_counterexample :
    pyInt (Value.vstr "") = none ∧
    (groupBills c5Rows).map (fun b => b.billNo)
      = [Value.vstr "", Value.vint 5, Value.vint 2] ∧
    (read_bills_from_xlsx c5Rows).map (fun b => b.billNo)
      = [Value.vstr "", Value.vint 2, Value.vint 5] := by
  decide

/-- C5 (amended): `loadLedger` never raises: it always returns a
permutation of the grouped bills; when the sort key `int(billNo or 0)`
raises for some bill (a truthy non-numeric billNo), the sort is skipped
for the whole list and first-seen grouping order is returned; when every
key computes (falsy billNos count as 0), the result is sorted ascending by
that key. -/
theorem c5_ledger_order_amended (rows : List (List Value)) :
    (read_bills_from_xlsx rows).Perm (groupBills rows) ∧
    ((∃ b ∈ groupBills rows, sortKeyOf b = none) →
      read_bills_from_xlsx rows = groupBills rows) ∧
    ((∀ b ∈ groupBills rows, (sortKeyOf b).isSome) →
      (read_bills_from_xlsx rows).Pairwise
        (fun a c => (sortKeyOf a).getD 0 ≤ (sortKeyOf c).getD 0)) := by
  have hcond : (((groupBills rows).map sortKeyOf).all Option.isSome = true)
      ↔ ∀ b ∈ groupBills rows, (sortKeyOf b).isSome := by
    simp [List.all_eq_true]
  refine ⟨?_, ?_, ?_⟩
  · unfold read_bills_from_xlsx
    split
    · exact sortBills_perm _
    · exact List.Perm.refl _
  · intro hex
    obtain ⟨b, hb, hnone⟩ := hex
    unfold read_bills_from_xlsx
    rw [if_neg]
    intro hc
    have := hcond.mp hc b hb
    rw [hnone] at this
    simp at this
  · intro hall
    unfold read_bills_from_xlsx
    rw [if_pos (hcond.mpr hall)]
    exact sortBills_sorted _

/-- Concrete ledger with a truthy non-numeric billNo for the C5 witness. -/
def c5WitnessRows : List (List Value) :=
  [[Value.vstr "x", Value.vstr "d", Value.vstr "T"]]

theorem c5_ledger_order_amended_witness :
    (read_bills_from_xlsx c5WitnessRows).Perm (groupBills c5WitnessRows) ∧
    read_bills_from_xlsx c5WitnessRows = groupBills c5WitnessRows :=
  ⟨(c5_ledger_order_amended c5WitnessRows).1,
   (c5_ledger_order_amended c5WitnessRows).2.1 (by decide)⟩

/-! ## C7 and C10: the `POST /api/bills` handler -/

/-- C7: when `items` validates, an absent or falsy `billNo` makes every
appended row carry `next_bill_no()` in its first column, and an absent or
falsy `dateTime` makes every appended row carry the current timestamp in
its second column. -/
theorem c7_defaults (now : String) (rows : List (List Value)) (p : BillPayload)
    (l : List ItemObj) (hitems : p.items = some (ItemsField.isList l)) :
    ((p.billNo = none ∨ ∃ v, p.billNo = some v ∧ pyFalsy v = true) →
      ∀ row ∈ (api_bills_post now rows p).2.drop rows.length,
        row.getD 0 Value.vnone = Value.vint (next_bill_no rows)) ∧
    ((p.dateTime = none ∨ ∃ v, p.dateTime = some v ∧ pyFalsy v = true) →
      ∀ row ∈ (api_bills_post now rows p).2.drop rows.length,
        row.getD 1 Value.vnone = Value.vstr now) := by
  have hpost : (api_bills_post now rows p).2
      = append_bill_to_xlsx now rows (resolvedBill now rows p) := by
    unfold api_bills_post
    rw [hitems]
  have happ : (api_bills_post now rows p).2 =
      rows ++ ((resolvedBill now rows p).items.getD []).map
        (billRow ((resolvedBill now rows p).billNo.getD (Value.vint (next_bill_no rows)))
          ((resolvedBill now rows p).dateTime.getD (Value.vstr now))
          ((resolvedBill now rows p).total.getD (Value.vnum 0))
          ((resolvedBill now rows p).payment.getD (Value.vstr ""))
          ((resolvedBill now rows p).table.getD (Value.vstr ""))) := by
    rw [hpost]
    rfl
  have hdrop : (api_bills_post now rows p).2.drop rows.length
      = ((resolvedBill now rows p).items.getD []).map
        (billRow ((resolvedBill now rows p).billNo.getD (Value.vint (next_bill_no rows)))
          ((resolvedBill now rows p).dateTime.getD (Value.vstr now))
          ((resolvedBill now rows p).total.getD (Value.vnum 0))
          ((resolvedBill now rows p).payment.getD (Value.vstr ""))
          ((resolvedBill now rows p).table.getD (Value.vstr ""))) := by
    rw [happ, List.drop_left]
  constructor
  · intro hbn row hrow
    rw [hdrop] at hrow
    rcases List.mem_map.mp hrow with ⟨it, _, rfl⟩
    have hbneq : (resolvedBill now rows p).billNo.getD (Value.vint (next_bill_no rows))
        = Value.vint (next_bill_no rows) := by
      rcases hbn with h | ⟨v, hv, hfal⟩
      · simp [resolvedBill, h]
      · simp [resolvedBill, hv, hfal]
    simp only [billRow, List.getD_cons_zero]
    exact hbneq
  · intro hdt row hrow
    rw [hdrop] at hrow
    rcases List.mem_map.mp hrow with ⟨it, _, rfl⟩
    have hdteq : (resolvedBill now rows p).dateTime.getD (Value.vstr now)
        = Value.vstr now := by
      rcases hdt with h | ⟨v, hv, hfal⟩
      · simp [resolvedBill, h]
      · simp [resolvedBill, hv, hfal]
    simp only [billRow, List.getD_cons_succ, List.getD_cons_zero]
    exact hdteq

/-- Concrete payload (falsy billNo 0, absent dateTime) for the C7 witness. -/
def c7Item : ItemObj :=
  { name := some (Value.vstr "Tea"), qty := some (Value.vint 1),
    rate := some (Value.vint 20), amount := some (Value.vint 20) }

def c7Payload : BillPayload :=
  { billNo := some (Value.vint 0), dateTime := none,
    payment := some (Value.vstr "Cash"), total := some (Value.vnum 20),
    table := some (Value.vstr "Outside 2"), items := some (ItemsField.isList [c7Item]) }

theorem c7_defaults_witness :
    (∀ row ∈ (api_bills_post "2024-01-03T12:00:00" [] c7Payload).2.drop
        (List.length ([] : List (List Value))),
      row.getD 0 Value.vnone = Value.vint (next_bill_no [])) ∧
    (∀ row ∈ (api_bills_post "2024-01-03T12:00:00" [] c7Payload).2.drop
        (List.length ([] : List (List Value))),
      row.getD 1 Value.vnone = Value.vstr "2024-01-03T12:00:00") :=
  ⟨(c7_defaults "2024-01-03T12:00:00" [] c7Payload [c7Item] rfl).1
      (Or.inr ⟨Value.vint 0, rfl, by decide⟩),
   (c7_defaults "2024-01-03T12:00:00" [] c7Payload [c7Item] rfl).2 (Or.inl rfl)⟩

/-- C10: a bill payload with no `items` key passes the `isinstance` check
(the default is the empty list), the handler reports success, and zero
rows are appended. -/
theorem c10_missing_items (now : String) (rows : List (List Value)) (p : BillPayload)
    (h : p.items = none) :
    api_bills_post now rows p = (HttpResp.ok, rows) := by
  unfold api_bills_post
  rw [h]
  simp [append_bill_to_xlsx, resolvedBill, h]

/-- Concrete payload without an `items` key for the C10 witness. -/
def c10Payload : BillPayload :=
  { billNo := some (Value.vint 9), table := some (Value.vstr "Last 1"),
    payment := some (Value.vstr "Card"), total := some (Value.vnum 0) }

theorem c10_missing_items_witness :
    api_bills_post "2024-01-04T08:00:00" c1WitnessRows c10Payload
      = (HttpResp.ok, c1WitnessRows) :=
  c10_missing_items "2024-01-04T08:00:00" c1WitnessRows c10Payload rfl

end Hoteal

